import Mathlib

/- Shallow embedding of the weather-api service (src/app/app.py): a FastAPI
   proxy that answers weather queries, caching upstream JSON responses in S3
   under keys of the form `{city}_{timestamp}.json` and logging each
   non-cached request to DynamoDB.  Machine-level effects (HTTP, S3, DynamoDB)
   are modelled by explicit state: the object store is an association list
   from keys to decoded JSON documents, the upstream is a (status, body)
   pair, and the DynamoDB log is the list of records appended during a
   request. -/

/-- JSON documents as produced by Python json.loads.  Numbers are modelled as
rationals (the code never performs arithmetic on them, it only passes them
through, so this is faithful for every claim considered here). -/
inductive JsonValue where
  | null : JsonValue
  | bool : Bool → JsonValue
  | num : ℚ → JsonValue
  | str : String → JsonValue
  | arr : List JsonValue → JsonValue
  | obj : List (String × JsonValue) → JsonValue

/-- Python truthiness (`if cached_weather:` in get_weather). -/
def pyTruthy : JsonValue → Bool
  | .null => false
  | .bool b => b
  | .num q => decide (q ≠ 0)
  | .str s => decide (s ≠ "")
  | .arr xs => !xs.isEmpty
  | .obj fs => !fs.isEmpty

/-- Field lookup in a Python dict built by json.loads: with duplicate keys the
last occurrence wins. -/
def lookupField (fs : List (String × JsonValue)) (key : String) : Option JsonValue :=
  match fs with
  | [] => none
  | (k, v) :: rest =>
    match lookupField rest key with
    | some v2 => some v2
    | none => if k = key then some v else none

/-- The exception outcomes a request can end in: FastAPI HTTPException (with
status and detail), or an unhandled Python KeyError / TypeError escaping from
an unguarded subscript. -/
inductive PyExc where
  | httpError (status : Nat) (detail : String)
  | keyError (key : String)
  | typeError

/-- Python subscript `doc[key]` on a JSON document: KeyError when a dict lacks
the key, TypeError when the value is not a dict. -/
def getItem : JsonValue → String → Except PyExc JsonValue
  | .obj fs, key =>
    match lookupField fs key with
    | some v => .ok v
    | none => .error (.keyError key)
  | _, _ => .error .typeError

/-- The unguarded `doc["main"]["temp"]` read performed on both response paths
of get_weather. -/
def getTemp (doc : JsonValue) : Except PyExc JsonValue :=
  match getItem doc "main" with
  | .ok m => getItem m "temp"
  | .error e => .error e

/-- Digit-sequence part of Python int(): digits with single underscores
allowed between digits ("1_2" parses, "_1", "1_", "1__2" do not).  The flag
records whether a digit is required next (at the start and after an
underscore). -/
def pyDigitsAux : List Char → Bool → Nat → Option Nat
  | [], needDigit, acc => if needDigit then none else some acc
  | c :: cs, needDigit, acc =>
    if c.isDigit then pyDigitsAux cs false (acc * 10 + (c.toNat - 48))
    else if c == '_' && !needDigit then pyDigitsAux cs true acc
    else none

def pyDigits (l : List Char) : Option Nat := pyDigitsAux l true 0

/-- Python int() applied to a string: surrounding whitespace is stripped, an
optional sign is accepted, then a digit sequence (with underscores between
digits); anything else raises ValueError, modelled as none. -/
def pyInt? (s : String) : Option Int :=
  let l1 := s.data.dropWhile Char.isWhitespace
  let l := (l1.reverse.dropWhile Char.isWhitespace).reverse
  match l with
  | [] => none
  | c :: rest =>
    if c == '+' then (pyDigits rest).map (fun n => (n : Int))
    else if c == '-' then (pyDigits rest).map (fun n => -(n : Int))
    else (pyDigits (c :: rest)).map (fun n => (n : Int))

/-- Bool test that `pat` is an initial segment of the second list. -/
def listStartsWith : List Char → List Char → Bool
  | [], _ => true
  | _ :: _, [] => false
  | p :: ps, c :: cs => p == c && listStartsWith ps cs

/-- Worker for removeAll, fuelled so that it is structurally recursive and
hence reduces definitionally; `removeAll` supplies fuel `s.length`, which is
always sufficient because each step consumes at least one character. -/
def removeAllGo (pat : List Char) : Nat → List Char → List Char
  | _, [] => []
  | 0, s => s
  | fuel + 1, c :: cs =>
    if listStartsWith pat (c :: cs) then removeAllGo pat fuel ((c :: cs).drop pat.length)
    else c :: removeAllGo pat fuel cs

/-- Python str.replace(pat, ""): remove every (left-to-right, non-overlapping)
occurrence of pat. -/
def removeAll (pat s : List Char) : List Char :=
  if pat.isEmpty then s else removeAllGo pat s.length s

def digitChar : Nat → Char
  | 0 => '0'
  | 1 => '1'
  | 2 => '2'
  | 3 => '3'
  | 4 => '4'
  | 5 => '5'
  | 6 => '6'
  | 7 => '7'
  | 8 => '8'
  | _ => '9'

/-- Worker for natToDigits, fuelled for structural recursion. -/
def natToDigitsGo : Nat → Nat → List Char → List Char
  | 0, _, acc => acc
  | fuel + 1, n, acc =>
    if n < 10 then digitChar n :: acc
    else natToDigitsGo fuel (n / 10) (digitChar (n % 10) :: acc)

/-- Decimal digits of a natural number, most significant first. -/
def natToDigits (n : Nat) : List Char := natToDigitsGo (n + 1) n []

/-- Value of a digit string, used to state correctness of the digit parser. -/
def digitsVal (l : List Char) : Nat := l.foldl (fun a c => a * 10 + (c.toNat - 48)) 0

/-- Python str(i) for an int, as used by the f-strings building S3 keys. -/
def intToString (i : Int) : String :=
  if i < 0 then String.mk ('-' :: natToDigits (-i).toNat) else String.mk (natToDigits i.toNat)

/-- S3 list_objects_v2 key filter: keys beginning with the given string. -/
def keyStartsWith (pfx key : String) : Bool := listStartsWith pfx.data key.data

/-- The keys of the object store matching a given key prefix (the "Contents"
of the list_objects_v2 response; an empty list models an absent "Contents"
field). -/
def s3List (store : List (String × JsonValue)) (pfx : String) : List String :=
  (store.map Prod.fst).filter (fun k => keyStartsWith pfx k)

/-- S3 get_object followed by json.loads; keys in the store are unique, and
the function is only applied to keys returned by a listing of the store. -/
def s3Get (store : List (String × JsonValue)) (key : String) : JsonValue :=
  match store.find? (fun p => p.1 == key) with
  | some p => p.2
  | none => .null

/-- S3 put_object: overwrites the object when the key exists, otherwise adds
a new object. -/
def s3Put (store : List (String × JsonValue)) (key : String) (v : JsonValue) :
    List (String × JsonValue) :=
  if (store.map Prod.fst).contains key
  then store.map (fun p => if p.1 == key then (key, v) else p)
  else store ++ [(key, v)]

def CACHE_TTL_SECONDS : Int := 300

/-- The key-to-timestamp computation of get_cached_weather:
`int(key.replace(prefix, "").replace(".json", ""))`. -/
def stripKey (pfx key : String) : String :=
  String.mk (removeAll (".json".data) (removeAll pfx.data key.data))

def parseKeyTs (pfx key : String) : Option Int := pyInt? (stripKey pfx key)

/-- The scanning loop of get_cached_weather: the accumulator is the pair
(latest_obj, latest_ts), started at (None, 0); a key whose stripped form does
not parse as a Python int is skipped (the `except ValueError: continue`), and
a parsed timestamp replaces the current maximum only when strictly greater. -/
def scanLoop (pfx : String) : List String → Option String × Int → Option String × Int
  | [], acc => acc
  | key :: rest, acc =>
    match parseKeyTs pfx key with
    | some ts => if ts > acc.2 then scanLoop pfx rest (some key, ts) else scanLoop pfx rest acc
    | none => scanLoop pfx rest acc

def scanKeys (pfx : String) (keys : List String) : Option String × Int :=
  scanLoop pfx keys (none, 0)

/-- get_cached_weather: list keys under `{city}_`; return None when the
listing is empty; otherwise scan for the latest parsable timestamp, return
None when nothing was selected (`if not latest_obj`, which is Python-falsy
for both None and the empty string) or when the freshest entry is older than
the TTL; otherwise fetch and decode that object. -/
def get_cached_weather (listing : List String) (getObj : String → JsonValue)
    (city : String) (now_ts : Int) : Option JsonValue :=
  match listing with
  | [] => none
  | _ :: _ =>
    match scanKeys (city ++ "_") listing with
    | (some k, latest_ts) =>
      if k = "" then none
      else if now_ts - latest_ts > CACHE_TTL_SECONDS then none
      else some (getObj k)
    | (none, _) => none

def upstreamDetail : String := "Weather service unavailable or city not found"

/-- fetch_weather: raises HTTPException with the upstream status code whenever
the upstream status is anything other than 200, otherwise returns the parsed
JSON body. -/
def fetch_weather (status : Nat) (body : JsonValue) : Except PyExc JsonValue :=
  if status ≠ 200 then .error (.httpError status upstreamDetail) else .ok body

/-- A DynamoDB access-log record (the wall-clock processed_at field of the
source, `str(time.time())`, is nondeterministic and carried by no claim, so
it is not modelled). -/
structure LogRecord where
  city : String
  timestamp : Int
  s3_uri : String

/-- The environment a single request runs in: the S3 contents at request
start, the configured bucket name, the upstream response this request would
receive, and whether the DynamoDB put succeeds. -/
structure Env where
  store : List (String × JsonValue)
  bucket : String
  upstreamStatus : Nat
  upstreamBody : JsonValue
  logOk : Bool

structure WeatherResponse where
  city : String
  temperature : JsonValue
  source : String

/-- Observable outcome of one request: the HTTP-level result, the final S3
contents, the DynamoDB records appended during the request, and whether the
upstream API was called. -/
structure Outcome where
  result : Except PyExc WeatherResponse
  store : List (String × JsonValue)
  logAppended : List LogRecord
  upstreamCalled : Bool

def s3Uri (bucket filename : String) : String := "s3://" ++ bucket ++ "/" ++ filename

/-- upload_to_s3: put the JSON document and return the S3 URI. -/
def upload_to_s3 (bucket : String) (store : List (String × JsonValue)) (data : JsonValue)
    (filename : String) : List (String × JsonValue) × String :=
  (s3Put store filename data, s3Uri bucket filename)

/-- log_to_dynamodb: on a ClientError the request fails with HTTP 500. -/
def log_to_dynamodb (ok : Bool) (city : String) (ts : Int) (uri : String) :
    Except PyExc LogRecord :=
  if ok then .ok ⟨city, ts, uri⟩ else .error (.httpError 500 "Failed to log transaction")

/-- The cache lookup performed by get_weather, with the listing and object
reads taken from the environment's store. -/
def lookupResult (env : Env) (city : String) (ts : Int) : Option JsonValue :=
  get_cached_weather (s3List env.store (city ++ "_")) (s3Get env.store) city ts

/-- The miss path of get_weather (lines 166-179 of app.py): fetch upstream,
upload under `{city}_{timestamp}.json`, log, then build the response reading
`weather_data["main"]["temp"]`.  The subscript is evaluated after the store
and log writes, so those persist even when it raises. -/
def apiPath (env : Env) (city : String) (timestamp : Int) : Outcome :=
  match fetch_weather env.upstreamStatus env.upstreamBody with
  | .error e => ⟨.error e, env.store, [], true⟩
  | .ok weather_data =>
    let filename := city ++ "_" ++ intToString timestamp ++ ".json"
    match upload_to_s3 env.bucket env.store weather_data filename with
    | (store2, uri) =>
      match log_to_dynamodb env.logOk city timestamp uri with
      | .error e => ⟨.error e, store2, [], true⟩
      | .ok r =>
        match getTemp weather_data with
        | .ok t => ⟨.ok ⟨city, t, "api"⟩, store2, [r], true⟩
        | .error e => ⟨.error e, store2, [r], true⟩

/-- get_weather: a single timestamp is taken at request start and used for
the lookup, the stored filename and the log record.  A truthy cached document
is answered from cache (no upstream call, no writes); a missing or falsy one
falls through to the api path. -/
def get_weather (env : Env) (city : String) (timestamp : Int) : Outcome :=
  match lookupResult env city timestamp with
  | some cached =>
    if pyTruthy cached then
      match getTemp cached with
      | .ok t => ⟨.ok ⟨city, t, "cache"⟩, env.store, [], false⟩
      | .error e => ⟨.error e, env.store, [], false⟩
    else apiPath env city timestamp
  | none => apiPath env city timestamp

/-- Modelled from the spec's words only (for claim C3): the documented key
pattern, a regex-free rendering of `^{city}_\d+\.json$` — the key is the
city, an underscore, a nonempty run of ASCII digits, then ".json". -/
def matchesCachePattern (city key : String) : Bool :=
  let d := key.data
  let p := (city ++ "_").data
  listStartsWith p d && listStartsWith (".json".data.reverse) d.reverse &&
  decide (p.length + 6 ≤ d.length) &&
  ((d.drop p.length).take (d.length - p.length - 5)).all Char.isDigit

/-- The stored key `f"{city}_{timestamp}.json"`. -/
def storeKey (city : String) (t : Int) : String := city ++ "_" ++ intToString t ++ ".json"

/-- Composition used by claim C1: a ResultCache store into an empty bucket at
time t1 followed by a lookup at time t2. -/
def lookupAfterStore (city : String) (t1 t2 : Int) (v : JsonValue) : Option JsonValue :=
  let store := s3Put [] (storeKey city t1) v
  get_cached_weather (s3List store (city ++ "_")) (s3Get store) city t2

/- ------------------------------------------------------------------ -/
/- Helper lemmas: listStartsWith and removeAll                         -/
/- ------------------------------------------------------------------ -/

theorem listStartsWith_append (p r : List Char) : listStartsWith p (p ++ r) = true := by
  induction p with
  | nil => rfl
  | cons c cs ih => simp [listStartsWith, ih]

theorem mem_of_listStartsWith {p s : List Char} (h : listStartsWith p s = true) :
    ∀ c ∈ p, c ∈ s := by
  induction p generalizing s with
  | nil => intro c hc; cases hc
  | cons a as ih =>
    cases s with
    | nil => cases h
    | cons b bs =>
      simp only [listStartsWith, Bool.and_eq_true, beq_iff_eq] at h
      intro c hc
      rcases List.mem_cons.mp hc with rfl | hc
      · exact h.1 ▸ List.mem_cons_self _ _
      · exact List.mem_cons_of_mem _ (ih h.2 c hc)

theorem listStartsWith_cons_false {p0 : Char} {ps : List Char} {c : Char} {cs : List Char}
    (h : c ≠ p0) : listStartsWith (p0 :: ps) (c :: cs) = false := by
  have hb : (p0 == c) = false := beq_eq_false_iff_ne.mpr (Ne.symm h)
  simp [listStartsWith, hb]

theorem removeAllGo_nil (pat : List Char) (fuel : Nat) : removeAllGo pat fuel [] = [] := by
  cases fuel <;> rfl

theorem removeAllGo_fuel {pat : List Char} (hp : pat ≠ []) :
    ∀ f₁ f₂ s, s.length ≤ f₁ → s.length ≤ f₂ →
      removeAllGo pat f₁ s = removeAllGo pat f₂ s := by
  obtain ⟨p0, ps, rfl⟩ : ∃ p0 ps, pat = p0 :: ps := by
    cases pat with
    | nil => exact absurd rfl hp
    | cons p0 ps => exact ⟨p0, ps, rfl⟩
  intro f₁
  induction f₁ with
  | zero =>
    intro f₂ s h1 _
    have : s = [] := List.length_eq_zero.mp (Nat.le_zero.mp h1)
    subst this
    rw [removeAllGo_nil, removeAllGo_nil]
  | succ f ih =>
    intro f₂ s h1 h2
    cases s with
    | nil => rw [removeAllGo_nil, removeAllGo_nil]
    | cons c cs =>
      cases f₂ with
      | zero => simp at h2
      | succ f' =>
        show (if listStartsWith (p0 :: ps) (c :: cs)
              then removeAllGo (p0 :: ps) f ((c :: cs).drop (p0 :: ps).length)
              else c :: removeAllGo (p0 :: ps) f cs) =
            (if listStartsWith (p0 :: ps) (c :: cs)
              then removeAllGo (p0 :: ps) f' ((c :: cs).drop (p0 :: ps).length)
              else c :: removeAllGo (p0 :: ps) f' cs)
        have hdrop : (c :: cs).drop (p0 :: ps).length = cs.drop ps.length := by
          simp [List.length_cons]
        have hdlen : (cs.drop ps.length).length ≤ cs.length := by
          rw [List.length_drop]; omega
        have hcs1 : cs.length ≤ f := by simp at h1; omega
        have hcs2 : cs.length ≤ f' := by simp at h2; omega
        by_cases hh : listStartsWith (p0 :: ps) (c :: cs) = true
        · rw [if_pos hh, if_pos hh, hdrop]
          exact ih f' _ (le_trans hdlen hcs1) (le_trans hdlen hcs2)
        · rw [if_neg hh, if_neg hh, ih f' cs hcs1 hcs2]

theorem removeAllGo_no_occur {pat : List Char}
    (h : ∀ t : List Char, t <:+ s → listStartsWith pat t = false) :
    ∀ fuel, removeAllGo pat fuel s = s := by
  induction s with
  | nil => intro fuel; exact removeAllGo_nil _ _
  | cons c cs ih =>
    intro fuel
    cases fuel with
    | zero => rfl
    | succ f =>
      show (if listStartsWith pat (c :: cs) then removeAllGo pat f ((c :: cs).drop pat.length)
            else c :: removeAllGo pat f cs) = c :: cs
      rw [if_neg]
      · rw [ih (fun t ht => h t (ht.trans (List.suffix_cons c cs))) f]
      · simp [h (c :: cs) List.suffix_rfl]

theorem no_occur_of_not_mem {pat s : List Char} {x : Char} (hx : x ∈ pat) (hs : x ∉ s) :
    ∀ t : List Char, t <:+ s → listStartsWith pat t = false := by
  intro t ht
  by_contra hcon
  have hb : listStartsWith pat t = true := by
    cases hval : listStartsWith pat t
    · exact absurd hval hcon
    · rfl
  exact hs (ht.subset (mem_of_listStartsWith hb x hx))

theorem removeAll_no_occur {pat s : List Char} {x : Char} (hx : x ∈ pat) (hs : x ∉ s) :
    removeAll pat s = s := by
  have hp : pat ≠ [] := by rintro rfl; cases hx
  rw [removeAll, if_neg (by simpa using hp)]
  exact removeAllGo_no_occur (no_occur_of_not_mem hx hs) _

theorem removeAll_append_of_not_mem {pat r : List Char} {x : Char}
    (hx : x ∈ pat) (hr : x ∉ r) : removeAll pat (pat ++ r) = r := by
  have hp : pat ≠ [] := by rintro rfl; cases hx
  rw [removeAll, if_neg (by simpa using hp)]
  obtain ⟨c, cs, rfl⟩ : ∃ c cs, pat = c :: cs := by
    cases pat with
    | nil => exact absurd rfl hp
    | cons c cs => exact ⟨c, cs, rfl⟩
  show removeAllGo (c :: cs) ((c :: cs) ++ r).length (c :: (cs ++ r)) = r
  have hlen : ((c :: cs) ++ r).length = (cs ++ r).length + 1 := by simp
  rw [hlen]
  show (if listStartsWith (c :: cs) (c :: (cs ++ r))
        then removeAllGo (c :: cs) (cs ++ r).length ((c :: (cs ++ r)).drop (c :: cs).length)
        else c :: removeAllGo (c :: cs) (cs ++ r).length (cs ++ r)) = r
  rw [if_pos (by simpa using listStartsWith_append (c :: cs) r)]
  have hdrop : (c :: (cs ++ r)).drop (c :: cs).length = r := by
    show ((c :: cs) ++ r).drop (c :: cs).length = r
    exact List.drop_left _ _
  rw [hdrop]
  have hfuel := @removeAllGo_fuel (c :: cs) (by simp) (cs ++ r).length r.length r
    (by simp) (Nat.le_refl _)
  rw [hfuel]
  exact removeAllGo_no_occur (no_occur_of_not_mem hx hr) _

theorem removeAll_append_pat {p0 : Char} {ps l : List Char}
    (h : ∀ c ∈ l, c ≠ p0) : removeAll (p0 :: ps) (l ++ (p0 :: ps)) = l := by
  rw [removeAll, if_neg (by simp)]
  have main : ∀ fuel l, l.length + (p0 :: ps).length ≤ fuel → (∀ c ∈ l, c ≠ p0) →
      removeAllGo (p0 :: ps) fuel (l ++ (p0 :: ps)) = l := by
    intro fuel
    induction fuel with
    | zero => intro l hl _; simp at hl
    | succ f ih =>
      intro l hl hc
      cases l with
      | nil =>
        show removeAllGo (p0 :: ps) (f + 1) (p0 :: ps) = []
        show (if listStartsWith (p0 :: ps) (p0 :: ps)
              then removeAllGo (p0 :: ps) f ((p0 :: ps).drop (p0 :: ps).length)
              else p0 :: removeAllGo (p0 :: ps) f ps) = []
        rw [if_pos (by simpa using listStartsWith_append (p0 :: ps) [])]
        rw [List.drop_length]
        exact removeAllGo_nil _ _
      | cons a l' =>
        show removeAllGo (p0 :: ps) (f + 1) (a :: (l' ++ (p0 :: ps))) = a :: l'
        show (if listStartsWith (p0 :: ps) (a :: (l' ++ (p0 :: ps)))
              then removeAllGo (p0 :: ps) f ((a :: (l' ++ (p0 :: ps))).drop (p0 :: ps).length)
              else a :: removeAllGo (p0 :: ps) f (l' ++ (p0 :: ps))) = a :: l'
        rw [if_neg]
        · rw [ih l' (by simp at hl ⊢; omega) (fun c hcm => hc c (List.mem_cons_of_mem _ hcm))]
        · simp [listStartsWith_cons_false (hc a (List.mem_cons_self _ _))]
  exact main _ l (by simp) h

/- ------------------------------------------------------------------ -/
/- Helper lemmas: decimal printing and Python int parsing              -/
/- ------------------------------------------------------------------ -/

theorem digitChar_isDigit (k : Nat) : (digitChar k).isDigit = true := by
  unfold digitChar
  split <;> decide

theorem digitChar_val {k : Nat} (h : k < 10) : (digitChar k).toNat - 48 = k := by
  interval_cases k <;> decide

theorem isDigit_ne_underscore {c : Char} (h : c.isDigit = true) : c ≠ '_' := by
  intro heq; rw [heq] at h; exact absurd h (by decide)

theorem isDigit_ne_dot {c : Char} (h : c.isDigit = true) : c ≠ '.' := by
  intro heq; rw [heq] at h; exact absurd h (by decide)

theorem isDigit_ne_plus {c : Char} (h : c.isDigit = true) : c ≠ '+' := by
  intro heq; rw [heq] at h; exact absurd h (by decide)

theorem isDigit_ne_minus {c : Char} (h : c.isDigit = true) : c ≠ '-' := by
  intro heq; rw [heq] at h; exact absurd h (by decide)

theorem isDigit_not_whitespace {c : Char} (h : c.isDigit = true) : c.isWhitespace = false := by
  cases hval : c.isWhitespace
  · rfl
  · exfalso
    simp only [Char.isWhitespace, Bool.or_eq_true, decide_eq_true_eq] at hval
    rcases hval with ((rfl | rfl) | rfl) | rfl <;> exact absurd h (by decide)

theorem natToDigitsGo_acc : ∀ fuel n acc, n < fuel →
    natToDigitsGo fuel n acc = natToDigitsGo fuel n [] ++ acc := by
  intro fuel
  induction fuel with
  | zero => intro n acc h; omega
  | succ f ih =>
    intro n acc h
    show (if n < 10 then digitChar n :: acc
          else natToDigitsGo f (n / 10) (digitChar (n % 10) :: acc)) =
        (if n < 10 then digitChar n :: ([] : List Char)
          else natToDigitsGo f (n / 10) [digitChar (n % 10)]) ++ acc
    by_cases h10 : n < 10
    · rw [if_pos h10, if_pos h10]; rfl
    · rw [if_neg h10, if_neg h10]
      have hdiv : n / 10 < f := by
        have : n / 10 < n := Nat.div_lt_self (by omega) (by omega)
        omega
      rw [ih (n / 10) (digitChar (n % 10) :: acc) hdiv, ih (n / 10) [digitChar (n % 10)] hdiv]
      simp

theorem natToDigitsGo_fuel : ∀ f₁ f₂ n acc, n < f₁ → n < f₂ →
    natToDigitsGo f₁ n acc = natToDigitsGo f₂ n acc := by
  intro f₁
  induction f₁ with
  | zero => intro f₂ n acc h; omega
  | succ f ih =>
    intro f₂ n acc h1 h2
    cases f₂ with
    | zero => omega
    | succ f' =>
      show (if n < 10 then digitChar n :: acc
            else natToDigitsGo f (n / 10) (digitChar (n % 10) :: acc)) =
          (if n < 10 then digitChar n :: acc
            else natToDigitsGo f' (n / 10) (digitChar (n % 10) :: acc))
      by_cases h10 : n < 10
      · rw [if_pos h10, if_pos h10]
      · rw [if_neg h10, if_neg h10]
        have : n / 10 < n := Nat.div_lt_self (by omega) (by omega)
        exact ih f' (n / 10) _ (by omega) (by omega)

theorem natToDigits_lt10 {n : Nat} (h : n < 10) : natToDigits n = [digitChar n] := by
  show (if n < 10 then digitChar n :: ([] : List Char)
        else natToDigitsGo n (n / 10) (digitChar (n % 10) :: [])) = [digitChar n]
  rw [if_pos h]

theorem natToDigits_ge10 {n : Nat} (h : 10 ≤ n) :
    natToDigits n = natToDigits (n / 10) ++ [digitChar (n % 10)] := by
  have hdivn : n / 10 < n := Nat.div_lt_self (by omega) (by omega)
  show (if n < 10 then digitChar n :: ([] : List Char)
        else natToDigitsGo n (n / 10) (digitChar (n % 10) :: [])) = _
  rw [if_neg (by omega)]
  rw [natToDigitsGo_fuel n (n / 10 + 1) (n / 10) _ (by omega) (by omega)]
  rw [natToDigitsGo_acc (n / 10 + 1) (n / 10) _ (by omega)]
  rfl

theorem natToDigits_ne_nil (n : Nat) : natToDigits n ≠ [] := by
  by_cases h : n < 10
  · rw [natToDigits_lt10 h]; simp
  · rw [natToDigits_ge10 (by omega)]; simp

theorem natToDigits_all_digit (n : Nat) : ∀ c ∈ natToDigits n, c.isDigit = true := by
  induction n using Nat.strong_induction_on with
  | _ n ih =>
    by_cases h : n < 10
    · rw [natToDigits_lt10 h]
      intro c hc
      rcases List.mem_singleton.mp hc with rfl
      exact digitChar_isDigit n
    · rw [natToDigits_ge10 (by omega)]
      intro c hc
      rcases List.mem_append.mp hc with hc | hc
      · exact ih (n / 10) (Nat.div_lt_self (by omega) (by omega)) c hc
      · rcases List.mem_singleton.mp hc with rfl
        exact digitChar_isDigit _

theorem digitsVal_natToDigits (n : Nat) : digitsVal (natToDigits n) = n := by
  induction n using Nat.strong_induction_on with
  | _ n ih =>
    by_cases h : n < 10
    · rw [natToDigits_lt10 h]
      show 0 * 10 + ((digitChar n).toNat - 48) = n
      rw [digitChar_val h]; omega
    · rw [natToDigits_ge10 (by omega)]
      have : digitsVal (natToDigits (n / 10) ++ [digitChar (n % 10)]) =
          digitsVal (natToDigits (n / 10)) * 10 + ((digitChar (n % 10)).toNat - 48) := by
        simp [digitsVal, List.foldl_append]
      rw [this, ih (n / 10) (Nat.div_lt_self (by omega) (by omega)),
        digitChar_val (Nat.mod_lt _ (by omega))]
      omega

theorem pyDigitsAux_all_digits : ∀ (l : List Char) (acc : Nat),
    (∀ c ∈ l, c.isDigit = true) →
    pyDigitsAux l false acc = some (l.foldl (fun a c => a * 10 + (c.toNat - 48)) acc) := by
  intro l
  induction l with
  | nil => intro acc _; rfl
  | cons c cs ih =>
    intro acc h
    show (if c.isDigit then pyDigitsAux cs false (acc * 10 + (c.toNat - 48))
          else if c == '_' && !false then pyDigitsAux cs true acc else none) = _
    rw [if_pos (h c (List.mem_cons_self _ _))]
    rw [ih _ (fun x hx => h x (List.mem_cons_of_mem _ hx))]
    rfl

theorem pyDigits_all_digits {l : List Char} (hne : l ≠ [])
    (h : ∀ c ∈ l, c.isDigit = true) : pyDigits l = some (digitsVal l) := by
  cases l with
  | nil => exact absurd rfl hne
  | cons c cs =>
    show pyDigitsAux (c :: cs) true 0 = some (digitsVal (c :: cs))
    show (if c.isDigit then pyDigitsAux cs false (0 * 10 + (c.toNat - 48))
          else if c == '_' && !true then pyDigitsAux cs true 0 else none) = _
    rw [if_pos (h c (List.mem_cons_self _ _))]
    rw [pyDigitsAux_all_digits cs _ (fun x hx => h x (List.mem_cons_of_mem _ hx))]
    rfl

theorem dropWhile_all_false {p : Char → Bool} {l : List Char}
    (h : ∀ c ∈ l, p c = false) : l.dropWhile p = l := by
  cases l with
  | nil => rfl
  | cons c cs =>
    rw [List.dropWhile_cons, if_neg]
    simp [h c (List.mem_cons_self _ _)]

theorem pyInt_digits {l : List Char} (hne : l ≠ [])
    (hd : ∀ c ∈ l, c.isDigit = true) :
    pyInt? (String.mk l) = some ((digitsVal l : Int)) := by
  have hws : ∀ c ∈ l, Char.isWhitespace c = false :=
    fun c hc => isDigit_not_whitespace (hd c hc)
  have h1 : (String.mk l).data.dropWhile Char.isWhitespace = l := dropWhile_all_false hws
  have h2 : (l.reverse.dropWhile Char.isWhitespace).reverse = l := by
    rw [dropWhile_all_false (fun c hc => hws c (List.mem_reverse.mp hc)), List.reverse_reverse]
  show (match (((String.mk l).data.dropWhile Char.isWhitespace).reverse.dropWhile
        Char.isWhitespace).reverse with
    | [] => none
    | c :: rest =>
      if c == '+' then (pyDigits rest).map (fun n => (n : Int))
      else if c == '-' then (pyDigits rest).map (fun n => -(n : Int))
      else (pyDigits (c :: rest)).map (fun n => (n : Int))) = some ((digitsVal l : Int))
  rw [h1, h2]
  cases l with
  | nil => exact absurd rfl hne
  | cons c cs =>
    have hc : c.isDigit = true := hd c (List.mem_cons_self _ _)
    show (if c == '+' then (pyDigits cs).map (fun n => (n : Int))
          else if c == '-' then (pyDigits cs).map (fun n => -(n : Int))
          else (pyDigits (c :: cs)).map (fun n => (n : Int))) = _
    rw [if_neg (by simp [isDigit_ne_plus hc]), if_neg (by simp [isDigit_ne_minus hc])]
    rw [pyDigits_all_digits (by simp) hd]
    rfl

/- ------------------------------------------------------------------ -/
/- Helper lemmas: stripKey on well-formed stored keys                  -/
/- ------------------------------------------------------------------ -/

theorem string_data_append (a b : String) : (a ++ b).data = a.data ++ b.data := rfl

theorem intToString_nonneg {t : Int} (ht : 0 ≤ t) :
    intToString t = String.mk (natToDigits t.toNat) := by
  rw [intToString, if_neg (by omega : ¬ t < 0)]

theorem storeKey_data (city : String) {t : Int} (ht : 0 ≤ t) :
    (storeKey city t).data = (city ++ "_").data ++ (natToDigits t.toNat ++ ".json".data) := by
  have h1 : storeKey city t = ((city ++ "_") ++ intToString t) ++ ".json" := rfl
  rw [h1, intToString_nonneg ht, string_data_append, string_data_append]
  have hmk : (String.mk (natToDigits t.toNat)).data = natToDigits t.toNat := rfl
  rw [hmk, List.append_assoc]

theorem parseKeyTs_storeKey (city : String) {t : Int} (ht : 0 ≤ t) :
    parseKeyTs (city ++ "_") (storeKey city t) = some t := by
  have hdigits := natToDigits_all_digit t.toNat
  have hne := natToDigits_ne_nil t.toNat
  have h1 : removeAll (city ++ "_").data (storeKey city t).data =
      natToDigits t.toNat ++ ".json".data := by
    rw [storeKey_data city ht]
    refine @removeAll_append_of_not_mem _ _ '_' ?_ ?_
    · rw [string_data_append]
      exact List.mem_append.mpr (Or.inr (by decide))
    · intro hmem
      rcases List.mem_append.mp hmem with hmem | hmem
      · exact isDigit_ne_underscore (hdigits _ hmem) rfl
      · exact absurd hmem (by decide)
  have h2 : removeAll (".json".data) (natToDigits t.toNat ++ ".json".data) =
      natToDigits t.toNat := by
    show removeAll ('.' :: ['j', 's', 'o', 'n'])
      (natToDigits t.toNat ++ ('.' :: ['j', 's', 'o', 'n'])) = natToDigits t.toNat
    exact removeAll_append_pat (fun c hc => isDigit_ne_dot (hdigits c hc))
  show pyInt? (String.mk (removeAll (".json".data)
    (removeAll (city ++ "_").data (storeKey city t).data))) = some t
  rw [h1, h2, pyInt_digits hne hdigits, digitsVal_natToDigits]
  rw [Int.toNat_of_nonneg ht]

theorem parseKeyTs_empty_key (pfx : String) : parseKeyTs pfx "" = none := by
  have h0 : removeAll pfx.data ("".data) = [] := by
    rw [removeAll]
    split
    · rfl
    · exact removeAllGo_nil _ _
  show pyInt? (String.mk (removeAll (".json".data) (removeAll pfx.data ("".data)))) = none
  rw [h0]
  rfl

/- ------------------------------------------------------------------ -/
/- Helper lemmas: the scanning loop of get_cached_weather              -/
/- ------------------------------------------------------------------ -/

theorem scanLoop_snd_ge (pfx : String) :
    ∀ (L : List String) (acc : Option String × Int), acc.2 ≤ (scanLoop pfx L acc).2 := by
  intro L
  induction L with
  | nil => intro acc; exact le_refl _
  | cons key rest ih =>
    intro acc
    cases hp : parseKeyTs pfx key with
    | none => simpa only [scanLoop, hp] using ih acc
    | some ts =>
      simp only [scanLoop, hp]
      by_cases hgt : ts > acc.2
      · rw [if_pos hgt]
        exact le_trans (le_of_lt hgt) (ih (some key, ts))
      · rw [if_neg hgt]
        exact ih acc

theorem scanLoop_some_stays (pfx : String) :
    ∀ (L : List String) (k : String) (t : Int),
      ∃ k' t', scanLoop pfx L (some k, t) = (some k', t') := by
  intro L
  induction L with
  | nil => intro k t; exact ⟨k, t, rfl⟩
  | cons key rest ih =>
    intro k t
    cases hp : parseKeyTs pfx key with
    | none => simpa only [scanLoop, hp] using ih k t
    | some ts =>
      simp only [scanLoop, hp]
      by_cases hgt : ts > t
      · rw [if_pos (by simpa using hgt)]
        exact ih key ts
      · rw [if_neg (by simpa using hgt)]
        exact ih k t

theorem scanLoop_none_snd (pfx : String) :
    ∀ (L : List String) (t t' : Int), scanLoop pfx L (none, t) = (none, t') → t' = t := by
  intro L
  induction L with
  | nil => intro t t' h; exact (congrArg Prod.snd h).symm
  | cons key rest ih =>
    intro t t' h
    cases hp : parseKeyTs pfx key with
    | none =>
      simp only [scanLoop, hp] at h
      exact ih t t' h
    | some ts =>
      simp only [scanLoop, hp] at h
      by_cases hgt : ts > t
      · rw [if_pos hgt] at h
        obtain ⟨k', t'', heq⟩ := scanLoop_some_stays pfx rest key ts
        rw [heq] at h
        cases h
      · rw [if_neg hgt] at h
        exact ih t t' h

theorem scanLoop_some_mem (pfx : String) :
    ∀ (L : List String) (o : Option String) (t : Int) (k' : String) (t' : Int),
      scanLoop pfx L (o, t) = (some k', t') →
      (o = some k' ∧ t' = t) ∨ (k' ∈ L ∧ parseKeyTs pfx k' = some t') := by
  intro L
  induction L with
  | nil =>
    intro o t k' t' h
    have h1 : o = some k' := congrArg Prod.fst h
    have h2 : t = t' := congrArg Prod.snd h
    exact Or.inl ⟨h1, h2.symm⟩
  | cons key rest ih =>
    intro o t k' t' h
    cases hp : parseKeyTs pfx key with
    | none =>
      simp only [scanLoop, hp] at h
      rcases ih o t k' t' h with hl | hr
      · exact Or.inl hl
      · exact Or.inr ⟨List.mem_cons_of_mem _ hr.1, hr.2⟩
    | some ts =>
      simp only [scanLoop, hp] at h
      by_cases hgt : ts > t
      · rw [if_pos hgt] at h
        rcases ih (some key) ts k' t' h with hl | hr
        · have hk : key = k' := Option.some.inj hl.1
          subst hk
          exact Or.inr ⟨List.mem_cons_self _ _, hl.2 ▸ hp⟩
        · exact Or.inr ⟨List.mem_cons_of_mem _ hr.1, hr.2⟩
      · rw [if_neg hgt] at h
        rcases ih o t k' t' h with hl | hr
        · exact Or.inl hl
        · exact Or.inr ⟨List.mem_cons_of_mem _ hr.1, hr.2⟩

theorem scanLoop_some_pos (pfx : String) :
    ∀ (L : List String) (t0 : Int) (k' : String) (t' : Int),
      scanLoop pfx L (none, t0) = (some k', t') → t0 < t' := by
  intro L
  induction L with
  | nil => intro t0 k' t' h; cases h
  | cons key rest ih =>
    intro t0 k' t' h
    cases hp : parseKeyTs pfx key with
    | none =>
      simp only [scanLoop, hp] at h
      exact ih t0 k' t' h
    | some ts =>
      simp only [scanLoop, hp] at h
      by_cases hgt : ts > t0
      · rw [if_pos hgt] at h
        have := scanLoop_snd_ge pfx rest (some key, ts)
        rw [h] at this
        exact lt_of_lt_of_le hgt this
      · rw [if_neg hgt] at h
        exact ih t0 k' t' h

theorem scanLoop_snd_le (pfx : String) :
    ∀ (L : List String) (acc : Option String × Int) (B : Int), acc.2 ≤ B →
      (∀ k ∈ L, ∀ m, parseKeyTs pfx k = some m → m ≤ B) → (scanLoop pfx L acc).2 ≤ B := by
  intro L
  induction L with
  | nil => intro acc B hB _; exact hB
  | cons key rest ih =>
    intro acc B hB hall
    cases hp : parseKeyTs pfx key with
    | none =>
      simp only [scanLoop, hp]
      exact ih acc B hB (fun k hk => hall k (List.mem_cons_of_mem _ hk))
    | some ts =>
      simp only [scanLoop, hp]
      by_cases hgt : ts > acc.2
      · rw [if_pos hgt]
        exact ih (some key, ts) B (hall key (List.mem_cons_self _ _) ts hp)
          (fun k hk => hall k (List.mem_cons_of_mem _ hk))
      · rw [if_neg hgt]
        exact ih acc B hB (fun k hk => hall k (List.mem_cons_of_mem _ hk))

theorem scanLoop_snd_ge_mem (pfx : String) :
    ∀ (L : List String) (acc : Option String × Int) (k : String) (m : Int),
      k ∈ L → parseKeyTs pfx k = some m → m ≤ (scanLoop pfx L acc).2 := by
  intro L
  induction L with
  | nil => intro acc k m hk; cases hk
  | cons key rest ih =>
    intro acc k m hk hm
    rcases List.mem_cons.mp hk with rfl | hk
    · simp only [scanLoop, hm]
      by_cases hgt : m > acc.2
      · rw [if_pos hgt]
        exact scanLoop_snd_ge pfx rest (some k, m)
      · rw [if_neg hgt]
        exact le_trans (by omega) (scanLoop_snd_ge pfx rest acc)
    · cases hp : parseKeyTs pfx key with
      | none =>
        simp only [scanLoop, hp]
        exact ih acc k m hk hm
      | some ts =>
        simp only [scanLoop, hp]
        by_cases hgt : ts > acc.2
        · rw [if_pos hgt]
          exact ih (some key, ts) k m hk hm
        · rw [if_neg hgt]
          exact ih acc k m hk hm

/-- Characterization of a successful lookup: get_cached_weather returns a
document only when the scan selected a listed key whose stripped form parses
to a strictly positive timestamp within the TTL, and the document is the one
stored under that key. -/
theorem get_cached_some {listing : List String} {g : String → JsonValue}
    {city : String} {now : Int} {v : JsonValue}
    (h : get_cached_weather listing g city now = some v) :
    ∃ k ts, scanKeys (city ++ "_") listing = (some k, ts) ∧ k ∈ listing ∧
      parseKeyTs (city ++ "_") k = some ts ∧ 0 < ts ∧
      now - ts ≤ CACHE_TTL_SECONDS ∧ v = g k := by
  cases listing with
  | nil => cases h
  | cons a L =>
    rw [get_cached_weather] at h
    rcases hscan : scanKeys (city ++ "_") (a :: L) with ⟨o, t⟩
    rw [hscan] at h
    cases o with
    | none => cases h
    | some k =>
      have h2 : (if k = "" then none
          else if now - t > CACHE_TTL_SECONDS then none else some (g k)) = some v := h
      clear h
      by_cases hk0 : k = ""
      · rw [if_pos hk0] at h2; cases h2
      · rw [if_neg hk0] at h2
        by_cases httl : now - t > CACHE_TTL_SECONDS
        · rw [if_pos httl] at h2; cases h2
        · rw [if_neg httl] at h2
          have hv : v = g k := (Option.some.inj h2).symm
          have hmem := scanLoop_some_mem (city ++ "_") (a :: L) none 0 k t hscan
          rcases hmem with ⟨hcon, _⟩ | ⟨hmem, hparse⟩
          · cases hcon
          · exact ⟨k, t, rfl, hmem, hparse,
              scanLoop_some_pos (city ++ "_") (a :: L) 0 k t hscan, by omega, hv⟩

/- ------------------------------------------------------------------ -/
/- Helper lemmas: the object store                                     -/
/- ------------------------------------------------------------------ -/

theorem s3Put_nil (key : String) (v : JsonValue) : s3Put [] key v = [(key, v)] := rfl

theorem s3Get_cons_self (key : String) (v : JsonValue) (rest : List (String × JsonValue)) :
    s3Get ((key, v) :: rest) key = v := by
  have hb : ((key, v).1 == key) = true := by simp
  rw [s3Get, List.find?_cons, hb]

theorem s3List_single {pfx key : String} (v : JsonValue) (h : keyStartsWith pfx key = true) :
    s3List [(key, v)] pfx = [key] := by
  simp [s3List, h]

theorem keyStartsWith_storeKey (city : String) {t : Int} (ht : 0 ≤ t) :
    keyStartsWith (city ++ "_") (storeKey city t) = true := by
  rw [keyStartsWith, storeKey_data city ht]
  exact listStartsWith_append _ _

theorem storeKey_ne_empty (city : String) {t : Int} (ht : 0 ≤ t) : storeKey city t ≠ "" := by
  intro h0
  have hdata : (storeKey city t).data = [] := by rw [h0]
  rw [storeKey_data city ht] at hdata
  have h2 := List.append_eq_nil.mp hdata
  have h3 := List.append_eq_nil.mp h2.2
  exact absurd h3.2 (by decide)

/-- Unfolding get_cached_weather on a nonempty listing once the scan result
is known to have selected a key. -/
theorem get_cached_cons {a : String} {L : List String} {g : String → JsonValue}
    {city : String} {now : Int} {k : String} {ts : Int}
    (hscan : scanKeys (city ++ "_") (a :: L) = (some k, ts)) :
    get_cached_weather (a :: L) g city now =
      if k = "" then none
      else if now - ts > CACHE_TTL_SECONDS then none else some (g k) := by
  rw [get_cached_weather, hscan]

/-- Unfolding get_cached_weather when the scan selected nothing. -/
theorem get_cached_cons_none {a : String} {L : List String} {g : String → JsonValue}
    {city : String} {now : Int} {ts : Int}
    (hscan : scanKeys (city ++ "_") (a :: L) = (none, ts)) :
    get_cached_weather (a :: L) g city now = none := by
  rw [get_cached_weather, hscan]

theorem scanKeys_single_pos {city key : String} {t : Int}
    (hp : parseKeyTs (city ++ "_") key = some t) (ht : 0 < t) :
    scanKeys (city ++ "_") [key] = (some key, t) := by
  show scanLoop (city ++ "_") [key] (none, 0) = (some key, t)
  simp only [scanLoop, hp]
  rw [if_pos (by simpa using ht)]

/- ------------------------------------------------------------------ -/
/- Claims C1, C2, C3, C8: the ResultCache                              -/
/- ------------------------------------------------------------------ -/

/-- Claim C1 (amended): for every city and pair of times t1 < t2 with
1 ≤ t1, a store of a result at t1 (under key `{city}_{t1}.json`, into an
empty bucket) followed by a lookup at t2 returns the stored entry when
t2 - t1 ≤ 300 and returns none when t2 - t1 > 300, with the stored object
left in place in the object store either way.  (The restriction 1 ≤ t1 is
forced: a timestamp ≤ 0 is never selected, see the counterexample.) -/
theorem C1_thm (city : String) (t1 t2 : Int) (v : JsonValue)
    (h1 : 1 ≤ t1) (h12 : t1 < t2) :
    (t2 - t1 ≤ CACHE_TTL_SECONDS → lookupAfterStore city t1 t2 v = some v) ∧
    (CACHE_TTL_SECONDS < t2 - t1 → lookupAfterStore city t1 t2 v = none) ∧
    s3Get (s3Put [] (storeKey city t1) v) (storeKey city t1) = v := by
  have ht0 : (0:Int) ≤ t1 := by omega
  have hput : s3Put [] (storeKey city t1) v = [(storeKey city t1, v)] := s3Put_nil _ _
  have hget : s3Get [(storeKey city t1, v)] (storeKey city t1) = v := s3Get_cons_self _ _ _
  have hlist : s3List [(storeKey city t1, v)] (city ++ "_") = [storeKey city t1] :=
    s3List_single v (keyStartsWith_storeKey city ht0)
  have hscan : scanKeys (city ++ "_") [storeKey city t1] = (some (storeKey city t1), t1) :=
    scanKeys_single_pos (parseKeyTs_storeKey city ht0) (by omega)
  have hlookup : ∀ now : Int, lookupAfterStore city t1 now v =
      if now - t1 > CACHE_TTL_SECONDS then none else some v := by
    intro now
    show get_cached_weather (s3List (s3Put [] (storeKey city t1) v) (city ++ "_"))
        (s3Get (s3Put [] (storeKey city t1) v)) city now = _
    rw [hput, hlist, get_cached_cons hscan, if_neg (storeKey_ne_empty city ht0), hget]
  refine ⟨fun hle => ?_, fun hgt => ?_, by rw [hput]; exact hget⟩
  · rw [hlookup t2, if_neg (by omega)]
  · rw [hlookup t2, if_pos (by omega)]

/-- Claim C1 counterexample: the claim as stated quantifies over all pairs
of times t1 < t2; at t1 = 0, t2 = 1 (so t2 - t1 = 1 ≤ 300) the lookup after
the store returns none, not the stored entry, because the scan never selects
a parsed timestamp ≤ 0. -/
theorem C1_cex :
    lookupAfterStore "London" 0 1 (JsonValue.num 15) = none ∧
    (0:Int) < 1 ∧ (1:Int) - 0 ≤ CACHE_TTL_SECONDS :=
  ⟨rfl, by decide, by decide⟩

/-- Claim C1 witness: the amended theorem applied at city "London",
t1 = 100, t2 = 200. -/
theorem C1_wit :
    (1:Int) ≤ 100 ∧ (100:Int) < 200 ∧
      lookupAfterStore "London" 100 200 (JsonValue.num 15) = some (JsonValue.num 15) :=
  ⟨by decide, by decide,
    (C1_thm "London" 100 200 (JsonValue.num 15) (by decide) (by decide)).1 (by decide)⟩

/-- Claim C2 (amended): whenever some listed key parses to timestamp ts with
0 < ts, ts is maximal among the parsed timestamps, and the entry is fresh,
the lookup returns the document stored under a key carrying that maximum
parsed timestamp — for every permutation of the listing, i.e. regardless of
the order in which the object-store listing returns the keys.  (Positivity
is forced: a maximum parsed timestamp ≤ 0 selects nothing, see the
counterexample.) -/
theorem C2_thm (city : String) (now : Int) (g : String → JsonValue)
    (L : List String) (ts : Int) (hpos : 0 < ts)
    (hfresh : now - ts ≤ CACHE_TTL_SECONDS)
    (hmem : ∃ k ∈ L, parseKeyTs (city ++ "_") k = some ts)
    (hub : ∀ k ∈ L, ∀ m, parseKeyTs (city ++ "_") k = some m → m ≤ ts) :
    ∀ L', L.Perm L' → ∃ kSel, kSel ∈ L' ∧ parseKeyTs (city ++ "_") kSel = some ts ∧
      get_cached_weather L' g city now = some (g kSel) := by
  intro L' hperm
  obtain ⟨k0, hk0L, hk0p⟩ := hmem
  have hk0L' : k0 ∈ L' := hperm.mem_iff.mp hk0L
  have hub' : ∀ k ∈ L', ∀ m, parseKeyTs (city ++ "_") k = some m → m ≤ ts :=
    fun k hk => hub k (hperm.mem_iff.mpr hk)
  obtain ⟨a, T, rfl⟩ : ∃ a T, L' = a :: T := by
    cases L' with
    | nil => cases hk0L'
    | cons a T => exact ⟨a, T, rfl⟩
  rcases hscan : scanKeys (city ++ "_") (a :: T) with ⟨o, t'⟩
  have hs2 : scanLoop (city ++ "_") (a :: T) (none, 0) = (o, t') := hscan
  have hge : ts ≤ t' := by
    have h := scanLoop_snd_ge_mem (city ++ "_") (a :: T) (none, 0) k0 ts hk0L' hk0p
    rw [hs2] at h
    exact h
  have hle : t' ≤ ts := by
    have h := scanLoop_snd_le (city ++ "_") (a :: T) (none, 0) ts (by simp; omega) hub'
    rw [hs2] at h
    exact h
  have hts : t' = ts := le_antisymm hle hge
  subst hts
  cases o with
  | none =>
    exfalso
    have h0 := scanLoop_none_snd (city ++ "_") (a :: T) 0 t' hs2
    omega
  | some kSel =>
    rcases scanLoop_some_mem (city ++ "_") (a :: T) none 0 kSel t' hs2 with
      ⟨hcon, _⟩ | ⟨hmemSel, hparseSel⟩
    · cases hcon
    · refine ⟨kSel, hmemSel, hparseSel, ?_⟩
      have hkne : kSel ≠ "" := by
        intro h0
        rw [h0, parseKeyTs_empty_key] at hparseSel
        cases hparseSel
      rw [get_cached_cons hscan, if_neg hkne, if_neg (by omega)]

/-- Claim C2 counterexample: with the single stored key "c_0.json" (parsed
timestamp 0, fresh at now = 0) the entry carrying the maximum parsed
timestamp is not selected: lookup returns none, because the running maximum
starts at 0 and is only replaced by a strictly greater value. -/
theorem C2_cex :
    parseKeyTs ("c" ++ "_") "c_0.json" = some 0 ∧
    (0:Int) - 0 ≤ CACHE_TTL_SECONDS ∧
    get_cached_weather ["c_0.json"] (fun _ => JsonValue.num 15) "c" 0 = none :=
  ⟨rfl, by decide, rfl⟩

/-- Claim C2 witness: the amended theorem applied to the two-element listing
["c_1.json", "c_2.json"] permuted to ["c_2.json", "c_1.json"]. -/
theorem C2_wit :
    ∃ kSel, kSel ∈ ["c_2.json", "c_1.json"] ∧ parseKeyTs ("c" ++ "_") kSel = some 2 ∧
      get_cached_weather ["c_2.json", "c_1.json"] (fun _ => JsonValue.num 1) "c" 2 =
        some ((fun _ => JsonValue.num 1) kSel) :=
  C2_thm "c" 2 (fun _ => JsonValue.num 1) ["c_1.json", "c_2.json"] 2 (by decide) (by decide)
    ⟨"c_2.json", by decide, rfl⟩
    (by
      intro k hk m hm
      rcases List.mem_cons.mp hk with rfl | hk
      · rw [show parseKeyTs ("c" ++ "_") "c_1.json" = some 1 from rfl] at hm
        injection hm with h
        omega
      · rcases List.mem_cons.mp hk with rfl | hk
        · rw [show parseKeyTs ("c" ++ "_") "c_2.json" = some 2 from rfl] at hm
          injection hm with h
          omega
        · cases hk)
    ["c_2.json", "c_1.json"] (List.Perm.swap "c_2.json" "c_1.json" [])

/-- Claim C3 (amended): a key under the city's prefix whose stripped residue
(`key.replace(prefix, "").replace(".json", "")`) does not parse as a Python
int is ignored by lookup: deleting it from the listing leaves the lookup
result unchanged, and it never causes a failure.  (The claim's pattern
`{city}_<digits>.json` is not what the code checks: keys outside the pattern
whose residue still parses are accepted, see the counterexample.) -/
theorem C3_thm (city key : String) (L1 L2 : List String) (g : String → JsonValue) (now : Int)
    (hbad : parseKeyTs (city ++ "_") key = none) :
    get_cached_weather (L1 ++ key :: L2) g city now =
      get_cached_weather (L1 ++ L2) g city now := by
  have hscan : ∀ acc, scanLoop (city ++ "_") (L1 ++ key :: L2) acc =
      scanLoop (city ++ "_") (L1 ++ L2) acc := by
    intro acc
    induction L1 generalizing acc with
    | nil => simp only [List.nil_append, scanLoop, hbad]
    | cons a L ih =>
      show scanLoop _ (a :: (L ++ key :: L2)) acc = scanLoop _ (a :: (L ++ L2)) acc
      cases hp : parseKeyTs (city ++ "_") a with
      | none =>
        simp only [scanLoop, hp]
        exact ih _
      | some ts =>
        simp only [scanLoop, hp]
        by_cases hgt : ts > acc.2
        · rw [if_pos hgt, if_pos hgt]
          exact ih _
        · rw [if_neg hgt, if_neg hgt]
          exact ih _
  cases hL : L1 ++ L2 with
  | nil =>
    have h12 := List.append_eq_nil.mp hL
    rw [h12.1, h12.2]
    show get_cached_weather [key] g city now = get_cached_weather [] g city now
    have hsk : scanKeys (city ++ "_") [key] = (none, 0) := by
      show scanLoop (city ++ "_") [key] (none, 0) = (none, 0)
      simp only [scanLoop, hbad]
    rw [get_cached_cons_none hsk]
    rfl
  | cons b T =>
    cases hL1 : L1 ++ key :: L2 with
    | nil => exact absurd hL1 (by simp)
    | cons c U =>
      have hs1 : scanKeys (city ++ "_") (c :: U) = scanKeys (city ++ "_") (b :: T) := by
        rw [← hL1, ← hL]
        exact hscan (none, 0)
      rcases hsb : scanKeys (city ++ "_") (b :: T) with ⟨o, t⟩
      have hsc : scanKeys (city ++ "_") (c :: U) = (o, t) := by rw [hs1, hsb]
      cases o with
      | none => rw [get_cached_cons_none hsc, get_cached_cons_none hsb]
      | some k2 => rw [get_cached_cons hsc, get_cached_cons hsb]

/-- Claim C3 counterexample: "London_5_6.json" does not match the pattern
`^London_\d+\.json$` (its residue "5_6" is not a digit run), yet Python
int("5_6") parses to 56, so lookup does select it as the latest entry and
returns the object stored under it. -/
theorem C3_cex :
    matchesCachePattern "London" "London_5_6.json" = false ∧
    scanKeys ("London" ++ "_") ["London_5_6.json"] = (some "London_5_6.json", 56) ∧
    get_cached_weather ["London_5_6.json"] (fun _ => JsonValue.num 1) "London" 56 =
      some (JsonValue.num 1) :=
  ⟨rfl, rfl, rfl⟩

/-- Claim C3 witness: the amended theorem applied with the unparsable key
"c_x.json" inserted into the listing ["c_1.json"]. -/
theorem C3_wit :
    get_cached_weather (["c_1.json"] ++ "c_x.json" :: []) (fun _ => JsonValue.num 3) "c" 1 =
      get_cached_weather (["c_1.json"] ++ []) (fun _ => JsonValue.num 3) "c" 1 :=
  C3_thm "c" "c_x.json" ["c_1.json"] [] (fun _ => JsonValue.num 3) 1 rfl

/-- Claim C8: lookup never returns an entry whose parsed key timestamp is
≤ 0: every successful lookup comes from a listed key parsing to a strictly
positive timestamp; in particular, a single fresh `{city}_0.json` entry
makes lookup return none for every city, read time and store content. -/
theorem C8_thm :
    (∀ (listing : List String) (g : String → JsonValue) (city : String) (now : Int)
        (v : JsonValue), get_cached_weather listing g city now = some v →
      ∃ k ts, k ∈ listing ∧ parseKeyTs (city ++ "_") k = some ts ∧ 0 < ts ∧ v = g k) ∧
    (∀ (city : String) (g : String → JsonValue) (now : Int),
      get_cached_weather [storeKey city 0] g city now = none) := by
  constructor
  · intro listing g city now v h
    obtain ⟨k, ts, _, hmem, hparse, hpos, _, hv⟩ := get_cached_some h
    exact ⟨k, ts, hmem, hparse, hpos, hv⟩
  · intro city g now
    have hp : parseKeyTs (city ++ "_") (storeKey city 0) = some 0 :=
      parseKeyTs_storeKey city le_rfl
    have hscan : scanKeys (city ++ "_") [storeKey city 0] = (none, 0) := by
      show scanLoop (city ++ "_") [storeKey city 0] (none, 0) = (none, 0)
      simp only [scanLoop, hp]
      rw [if_neg (by omega)]
    exact get_cached_cons_none hscan

/-- Claim C8 witness: the first conjunct of the theorem applied to a
successful concrete lookup of "L_5.json". -/
theorem C8_wit :
    ∃ k ts, k ∈ ["L_5.json"] ∧ parseKeyTs ("L" ++ "_") k = some ts ∧ 0 < ts ∧
      JsonValue.null = (fun _ => JsonValue.null) k :=
  C8_thm.1 ["L_5.json"] (fun _ => JsonValue.null) "L" 5 JsonValue.null rfl

/- ------------------------------------------------------------------ -/
/- Helper lemmas: the request handler                                  -/
/- ------------------------------------------------------------------ -/

/-- When the cache lookup returns nothing truthy, get_weather takes the api
path (`if cached_weather:` fails for both None and falsy documents). -/
theorem get_weather_miss {env : Env} {city : String} {ts : Int}
    (h : ∀ v, lookupResult env city ts = some v → pyTruthy v = false) :
    get_weather env city ts = apiPath env city ts := by
  rw [get_weather]
  split
  · rename_i cached hl
    rw [h cached hl]
    simp
  · rfl

/-- Unfolding the api path once the upstream status is known to be 200. -/
theorem apiPath_200 {env : Env} {city : String} {ts : Int} (h200 : env.upstreamStatus = 200) :
    apiPath env city ts =
      match log_to_dynamodb env.logOk city ts
          (s3Uri env.bucket (city ++ "_" ++ intToString ts ++ ".json")) with
      | .error e => ⟨.error e,
          s3Put env.store (city ++ "_" ++ intToString ts ++ ".json") env.upstreamBody, [], true⟩
      | .ok r =>
        match getTemp env.upstreamBody with
        | .ok t => ⟨.ok ⟨city, t, "api"⟩,
            s3Put env.store (city ++ "_" ++ intToString ts ++ ".json") env.upstreamBody,
            [r], true⟩
        | .error e => ⟨.error e,
            s3Put env.store (city ++ "_" ++ intToString ts ++ ".json") env.upstreamBody,
            [r], true⟩ := by
  have hfetch : fetch_weather env.upstreamStatus env.upstreamBody = .ok env.upstreamBody := by
    rw [h200, fetch_weather, if_neg (by omega : ¬ ((200:Nat) ≠ 200))]
  rw [apiPath, hfetch]
  rfl

theorem getTemp_ok {doc m t : JsonValue} (hmain : getItem doc "main" = .ok m)
    (htemp : getItem m "temp" = .ok t) : getTemp doc = .ok t := by
  rw [getTemp, hmain]
  exact htemp

theorem find?_map_put {store : List (String × JsonValue)} {k : String} (v : JsonValue)
    (hc : k ∈ store.map Prod.fst) :
    List.find? (fun p => p.1 == k) (store.map (fun p => if p.1 == k then (k, v) else p)) =
      some (k, v) := by
  induction store with
  | nil => cases hc
  | cons p rest ih =>
    rw [List.map_cons]
    by_cases hp : p.1 = k
    · rw [if_pos (by simp [hp]), List.find?_cons, show ((k, v).1 == k) = true from by simp]
    · rw [if_neg (by simp [hp]), List.find?_cons,
        show (p.1 == k) = false from beq_eq_false_iff_ne.mpr hp]
      apply ih
      rw [List.map_cons] at hc
      rcases List.mem_cons.mp hc with heq | hmem
      · exact absurd heq.symm hp
      · exact hmem

theorem find?_append_absent {store : List (String × JsonValue)} {k : String} (v : JsonValue)
    (hc : k ∉ store.map Prod.fst) :
    List.find? (fun p => p.1 == k) (store ++ [(k, v)]) = some (k, v) := by
  induction store with
  | nil =>
    rw [List.nil_append, List.find?_cons, show ((k, v).1 == k) = true from by simp]
  | cons p rest ih =>
    rw [List.cons_append, List.find?_cons]
    have hp : (p.1 == k) = false := by
      refine beq_eq_false_iff_ne.mpr (fun heq => hc ?_)
      rw [List.map_cons]
      exact List.mem_cons.mpr (Or.inl heq.symm)
    rw [hp]
    apply ih
    intro hmem
    apply hc
    rw [List.map_cons]
    exact List.mem_cons_of_mem _ hmem

/-- Storing and then reading back the same key yields the stored document,
whether or not the key already existed (put overwrites). -/
theorem s3Get_s3Put (store : List (String × JsonValue)) (k : String) (v : JsonValue) :
    s3Get (s3Put store k v) k = v := by
  rw [s3Put]
  by_cases hc : (store.map Prod.fst).contains k = true
  · rw [if_pos hc, s3Get, find?_map_put v (by simpa using hc)]
  · rw [if_neg hc, s3Get, find?_append_absent v (by simpa using hc)]

/-- Shared success-path lemma: a miss followed by a 200 upstream response
with main.temp present and a working log store produces the api response,
one put and one log record. -/
theorem get_weather_api_success (env : Env) (city : String) (ts : Int) (m t : JsonValue)
    (hmiss : ∀ v, lookupResult env city ts = some v → pyTruthy v = false)
    (h200 : env.upstreamStatus = 200) (hlog : env.logOk = true)
    (hmain : getItem env.upstreamBody "main" = .ok m)
    (htemp : getItem m "temp" = .ok t) :
    get_weather env city ts =
      ⟨.ok ⟨city, t, "api"⟩,
        s3Put env.store (city ++ "_" ++ intToString ts ++ ".json") env.upstreamBody,
        [⟨city, ts, s3Uri env.bucket (city ++ "_" ++ intToString ts ++ ".json")⟩], true⟩ := by
  rw [get_weather_miss hmiss, apiPath_200 h200, hlog, log_to_dynamodb, if_pos rfl,
    getTemp_ok hmain htemp]

/- ------------------------------------------------------------------ -/
/- Claims C4-C7, C9, C10: the request handler                          -/
/- ------------------------------------------------------------------ -/

/-- Claim C4 (amended): fetch_weather fails with the upstream status code
exactly when the status differs from 200 (not: is non-2xx), and succeeds
with the parsed body exactly on 200; in particular, on a cache miss with an
upstream 404 the whole request fails with status 404 and a detail message,
the store is unchanged and no log record is appended. -/
theorem C4_thm :
    (∀ (status : Nat) (body : JsonValue),
      (status ≠ 200 → fetch_weather status body = .error (.httpError status upstreamDetail)) ∧
      (status = 200 → fetch_weather status body = .ok body)) ∧
    (∀ (env : Env) (city : String) (ts : Int),
      (∀ v, lookupResult env city ts = some v → pyTruthy v = false) →
      env.upstreamStatus = 404 →
      get_weather env city ts = ⟨.error (.httpError 404 upstreamDetail), env.store, [], true⟩) := by
  constructor
  · intro status body
    constructor
    · intro h
      rw [fetch_weather, if_pos h]
    · intro h
      rw [fetch_weather, if_neg (by simp [h])]
  · intro env city ts hmiss h404
    rw [get_weather_miss hmiss, apiPath, h404, fetch_weather,
      if_pos (by omega : (404:Nat) ≠ 200)]

/-- Claim C4 counterexample: 201 is a 2xx status, yet fetch_weather fails
with UpstreamUnavailable carrying 201 — the code tests `!= 200`, not
non-2xx. -/
theorem C4_cex :
    fetch_weather 201 (JsonValue.obj [("main", JsonValue.obj [("temp", JsonValue.num 1)])]) =
      .error (.httpError 201 upstreamDetail) ∧ 200 ≤ 201 ∧ 201 < 300 :=
  ⟨rfl, by decide, by decide⟩

/-- Claim C4 witness: the amended theorem applied at statuses 404 and 200,
and to a full request with an empty store and upstream 404. -/
theorem C4_wit :
    fetch_weather 404 JsonValue.null = .error (.httpError 404 upstreamDetail) ∧
    fetch_weather 200 JsonValue.null = .ok JsonValue.null ∧
    get_weather ⟨[], "bkt", 404, JsonValue.null, true⟩ "Atlantis" 7 =
      ⟨.error (.httpError 404 upstreamDetail), [], [], true⟩ :=
  ⟨(C4_thm.1 404 JsonValue.null).1 (by decide), (C4_thm.1 200 JsonValue.null).2 rfl,
    C4_thm.2 ⟨[], "bkt", 404, JsonValue.null, true⟩ "Atlantis" 7
      (fun _ h => nomatch h) rfl⟩

/-- Claim C5: on a cache miss (no entry, or a falsy one) with a 200 upstream
response whose body contains main.temp and a working log store, the handler
responds { city, temperature = body main.temp, source = "api" }, writes the
body under `{city}_{now}.json` with the single request timestamp, and
appends exactly one log record carrying the city, that timestamp and the
returned storage URI; when the key is new the store grows by exactly that
one object. -/
theorem C5_thm (env : Env) (city : String) (ts : Int) (m t : JsonValue)
    (hmiss : ∀ v, lookupResult env city ts = some v → pyTruthy v = false)
    (h200 : env.upstreamStatus = 200) (hlog : env.logOk = true)
    (hmain : getItem env.upstreamBody "main" = .ok m)
    (htemp : getItem m "temp" = .ok t) :
    get_weather env city ts =
      ⟨.ok ⟨city, t, "api"⟩,
        s3Put env.store (city ++ "_" ++ intToString ts ++ ".json") env.upstreamBody,
        [⟨city, ts, s3Uri env.bucket (city ++ "_" ++ intToString ts ++ ".json")⟩], true⟩ ∧
    ((env.store.map Prod.fst).contains (city ++ "_" ++ intToString ts ++ ".json") = false →
      s3Put env.store (city ++ "_" ++ intToString ts ++ ".json") env.upstreamBody =
        env.store ++ [(city ++ "_" ++ intToString ts ++ ".json", env.upstreamBody)]) := by
  constructor
  · exact get_weather_api_success env city ts m t hmiss h200 hlog hmain htemp
  · intro hc
    rw [s3Put, if_neg (by rw [hc]; exact Bool.false_ne_true)]

/-- Claim C5 witness: the theorem applied to the London scenario of the
spec (empty store, upstream body {"main": {"temp": 15.2}}). -/
theorem C5_wit :
    get_weather ⟨[], "bkt", 200,
        JsonValue.obj [("main", JsonValue.obj [("temp", JsonValue.num 15.2)])], true⟩
        "London" 7 =
      ⟨.ok ⟨"London", JsonValue.num 15.2, "api"⟩,
        [("London_7.json", JsonValue.obj [("main", JsonValue.obj [("temp", JsonValue.num 15.2)])])],
        [⟨"London", 7, "s3://bkt/London_7.json"⟩], true⟩ :=
  (C5_thm ⟨[], "bkt", 200,
      JsonValue.obj [("main", JsonValue.obj [("temp", JsonValue.num 15.2)])], true⟩
    "London" 7 (JsonValue.obj [("temp", JsonValue.num 15.2)]) (JsonValue.num 15.2)
    (fun _ h => nomatch h) rfl rfl rfl rfl).1

/-- Claim C6: when the lookup returns a truthy cached document containing
main.temp, the handler answers { city, cached temperature, source = "cache" }
and performs no upstream call, no store write and no log append. -/
theorem C6_thm (env : Env) (city : String) (ts : Int) (v m t : JsonValue)
    (hhit : lookupResult env city ts = some v) (htr : pyTruthy v = true)
    (hmain : getItem v "main" = .ok m) (htemp : getItem m "temp" = .ok t) :
    get_weather env city ts = ⟨.ok ⟨city, t, "cache"⟩, env.store, [], false⟩ := by
  rw [get_weather, hhit]
  show (if pyTruthy v = true then
        (match getTemp v with
          | .ok tv => (⟨.ok ⟨city, tv, "cache"⟩, env.store, [], false⟩ : Outcome)
          | .error e => ⟨.error e, env.store, [], false⟩)
        else apiPath env city ts) = _
  rw [htr, if_pos rfl, getTemp_ok hmain htemp]

/-- Claim C6 witness: the theorem applied to the fresh-cache London
scenario (stored body {"main": {"temp": 16.0}}, request at the stored
timestamp + 50). -/
theorem C6_wit :
    get_weather ⟨[("London_100.json",
        JsonValue.obj [("main", JsonValue.obj [("temp", JsonValue.num 16)])])],
        "bkt", 200, JsonValue.null, true⟩ "London" 150 =
      ⟨.ok ⟨"London", JsonValue.num 16, "cache"⟩,
        [("London_100.json",
          JsonValue.obj [("main", JsonValue.obj [("temp", JsonValue.num 16)])])], [], false⟩ :=
  C6_thm ⟨[("London_100.json",
      JsonValue.obj [("main", JsonValue.obj [("temp", JsonValue.num 16)])])],
      "bkt", 200, JsonValue.null, true⟩ "London" 150
    (JsonValue.obj [("main", JsonValue.obj [("temp", JsonValue.num 16)])])
    (JsonValue.obj [("temp", JsonValue.num 16)]) (JsonValue.num 16) rfl rfl rfl rfl

/-- Claim C7: on a cache miss with a 200 upstream response, when the log
append fails the request fails with HTTP 500 ("Failed to log transaction"),
no log record is appended, and the object written during the persist step
remains stored (reading the key back yields the upstream body — no rollback
is performed). -/
theorem C7_thm (env : Env) (city : String) (ts : Int)
    (hmiss : ∀ v, lookupResult env city ts = some v → pyTruthy v = false)
    (h200 : env.upstreamStatus = 200) (hlog : env.logOk = false) :
    get_weather env city ts =
      ⟨.error (.httpError 500 "Failed to log transaction"),
        s3Put env.store (city ++ "_" ++ intToString ts ++ ".json") env.upstreamBody,
        [], true⟩ ∧
    s3Get (s3Put env.store (city ++ "_" ++ intToString ts ++ ".json") env.upstreamBody)
      (city ++ "_" ++ intToString ts ++ ".json") = env.upstreamBody := by
  constructor
  · rw [get_weather_miss hmiss, apiPath_200 h200, hlog, log_to_dynamodb,
      if_neg Bool.false_ne_true]
  · exact s3Get_s3Put _ _ _

/-- Claim C7 witness: the theorem applied to a concrete request with a
failing log store. -/
theorem C7_wit :
    get_weather ⟨[], "bkt", 200,
        JsonValue.obj [("main", JsonValue.obj [("temp", JsonValue.num 1)])], false⟩ "L" 7 =
      ⟨.error (.httpError 500 "Failed to log transaction"),
        [("L_7.json", JsonValue.obj [("main", JsonValue.obj [("temp", JsonValue.num 1)])])],
        [], true⟩ ∧
    s3Get [("L_7.json", JsonValue.obj [("main", JsonValue.obj [("temp", JsonValue.num 1)])])]
        "L_7.json" =
      JsonValue.obj [("main", JsonValue.obj [("temp", JsonValue.num 1)])] :=
  C7_thm ⟨[], "bkt", 200,
      JsonValue.obj [("main", JsonValue.obj [("temp", JsonValue.num 1)])], false⟩ "L" 7
    (fun _ h => nomatch h) rfl rfl

/-- Claim C9: when the freshest cache entry decodes to a falsy document
(such as {} or null) the handler treats the lookup as a miss: it fetches
upstream, stores a new object and appends a log record, exactly as on the
api path, even though a fresh entry existed. -/
theorem C9_thm (env : Env) (city : String) (ts : Int) (v m t : JsonValue)
    (hhit : lookupResult env city ts = some v) (hfalsy : pyTruthy v = false)
    (h200 : env.upstreamStatus = 200) (hlog : env.logOk = true)
    (hmain : getItem env.upstreamBody "main" = .ok m)
    (htemp : getItem m "temp" = .ok t) :
    get_weather env city ts =
      ⟨.ok ⟨city, t, "api"⟩,
        s3Put env.store (city ++ "_" ++ intToString ts ++ ".json") env.upstreamBody,
        [⟨city, ts, s3Uri env.bucket (city ++ "_" ++ intToString ts ++ ".json")⟩], true⟩ :=
  get_weather_api_success env city ts m t
    (fun _ hv' => (Option.some.inj (hhit ▸ hv')) ▸ hfalsy)
    h200 hlog hmain htemp

/-- Claim C9 witness: the theorem applied with a fresh falsy cached entry
({} stored at the request timestamp); the api write reuses the same key and
overwrites the falsy object. -/
theorem C9_wit :
    get_weather ⟨[("London_100.json", JsonValue.obj [])], "bkt", 200,
        JsonValue.obj [("main", JsonValue.obj [("temp", JsonValue.num 2)])], true⟩
        "London" 100 =
      ⟨.ok ⟨"London", JsonValue.num 2, "api"⟩,
        [("London_100.json", JsonValue.obj [("main", JsonValue.obj [("temp", JsonValue.num 2)])])],
        [⟨"London", 100, "s3://bkt/London_100.json"⟩], true⟩ :=
  C9_thm ⟨[("London_100.json", JsonValue.obj [])], "bkt", 200,
      JsonValue.obj [("main", JsonValue.obj [("temp", JsonValue.num 2)])], true⟩
    "London" 100 (JsonValue.obj []) (JsonValue.obj [("temp", JsonValue.num 2)])
    (JsonValue.num 2) rfl rfl rfl rfl rfl rfl

theorem getItem_error {doc : JsonValue} {key : String} {e : PyExc}
    (h : getItem doc key = .error e) : e = .keyError key ∨ e = .typeError := by
  cases doc with
  | obj fs =>
    cases hlf : lookupField fs key with
    | some w =>
      simp only [getItem, hlf] at h
      cases h
    | none =>
      simp only [getItem, hlf] at h
      exact Or.inl (Except.error.inj h).symm
  | null => exact Or.inr (Except.error.inj h).symm
  | bool b => exact Or.inr (Except.error.inj h).symm
  | num q => exact Or.inr (Except.error.inj h).symm
  | str s => exact Or.inr (Except.error.inj h).symm
  | arr xs => exact Or.inr (Except.error.inj h).symm

/-- Claim C10 (amended): temperature extraction is an unguarded subscript
with no fallback: whenever the document (cached or fetched) lacks the main.temp
path the extraction fails with an unhandled Python exception — a KeyError
when the inspected value is a dict lacking the key, a TypeError when it is
not a dict — never one of the HTTP error categories; a truthy cached
document failing extraction fails the whole request with that exception and
no writes; and when main.temp is present the access is total. -/
theorem C10_thm :
    (∀ (doc : JsonValue) (e : PyExc), getTemp doc = .error e →
      ((∃ k, e = .keyError k) ∨ e = .typeError) ∧ ∀ s d, e ≠ .httpError s d) ∧
    (∀ fs, lookupField fs "main" = none →
      getTemp (.obj fs) = .error (.keyError "main")) ∧
    (∀ (env : Env) (city : String) (ts : Int) (v : JsonValue) (e : PyExc),
      lookupResult env city ts = some v → pyTruthy v = true → getTemp v = .error e →
      get_weather env city ts = ⟨.error e, env.store, [], false⟩) ∧
    (∀ (doc m t : JsonValue), getItem doc "main" = .ok m → getItem m "temp" = .ok t →
      getTemp doc = .ok t) := by
  refine ⟨?_, ?_, ?_, fun doc m t hmain htemp => getTemp_ok hmain htemp⟩
  · intro doc e h
    have hshape : (∃ k, e = PyExc.keyError k) ∨ e = PyExc.typeError := by
      rw [getTemp] at h
      cases hmain : getItem doc "main" with
      | error e1 =>
        rw [hmain] at h
        have he : e1 = e := Except.error.inj h
        rcases getItem_error (he ▸ hmain) with h1 | h1
        · exact Or.inl ⟨"main", h1⟩
        · exact Or.inr h1
      | ok m =>
        rw [hmain] at h
        rcases getItem_error (h : getItem m "temp" = .error e) with h1 | h1
        · exact Or.inl ⟨"temp", h1⟩
        · exact Or.inr h1
    refine ⟨hshape, ?_⟩
    rcases hshape with ⟨k, rfl⟩ | rfl
    · intro s d hcon
      cases hcon
    · intro s d hcon
      cases hcon
  · intro fs hlf
    rw [getTemp]
    simp only [getItem, hlf]
  · intro env city ts v e hhit htr herr
    rw [get_weather, hhit]
    show (if pyTruthy v = true then
          (match getTemp v with
            | .ok tv => (⟨.ok ⟨city, tv, "cache"⟩, env.store, [], false⟩ : Outcome)
            | .error e2 => ⟨.error e2, env.store, [], false⟩)
          else apiPath env city ts) = _
    rw [htr, if_pos rfl, herr]

/-- Claim C10 counterexample: the cached document 5 (truthy, not a dict)
lacks the main.temp path, and the request fails with TypeError — not with
the KeyError the claim asserts for every such document. -/
theorem C10_cex :
    get_weather ⟨[("London_100.json", JsonValue.num 5)], "bkt", 200, JsonValue.null, true⟩
        "London" 100 =
      ⟨.error .typeError, [("London_100.json", JsonValue.num 5)], [], false⟩ ∧
    ∀ k, PyExc.typeError ≠ PyExc.keyError k :=
  ⟨rfl, fun _ h => PyExc.noConfusion h⟩

/-- Claim C10 witness: the amended theorem's handler conjunct applied to a
truthy non-dict cached entry, and its KeyError conjunct applied to the
empty dict. -/
theorem C10_wit :
    get_weather ⟨[("London_100.json", JsonValue.num 5)], "bkt", 200, JsonValue.null, true⟩
        "London" 100 =
      ⟨.error PyExc.typeError, [("London_100.json", JsonValue.num 5)], [], false⟩ ∧
    getTemp (.obj []) = .error (.keyError "main") :=
  ⟨C10_thm.2.2.1 ⟨[("London_100.json", JsonValue.num 5)], "bkt", 200, JsonValue.null, true⟩
      "London" 100 (JsonValue.num 5) PyExc.typeError rfl rfl rfl,
    C10_thm.2.1 [] rfl⟩
